import Mathlib

/-!
Verification of the birds flocking simulation (src/birds/src/main.rs).

The simulation core is embedded shallowly over the exact real numbers:
the f32 vector type Vec2 of the source (from the glam crate, re-exported
by nannou) becomes a pair of reals, and the arithmetic of the source is
mirrored operation by operation.  Machine rounding is abstracted away;
all algebraic and structural properties are settled in exact arithmetic.
-/

/-- Vec2 of the source: a 2D vector with components x and y. -/
structure Vec2 where
  x : ℝ
  y : ℝ

noncomputable instance : Add Vec2 := ⟨fun a b => ⟨a.x + b.x, a.y + b.y⟩⟩

noncomputable instance : Sub Vec2 := ⟨fun a b => ⟨a.x - b.x, a.y - b.y⟩⟩

/-- Vec2::default() of the source: the zero vector. -/
def Vec2.zero : Vec2 := ⟨0, 0⟩

/-- Multiplication of a vector by a scalar on the right, as written
vector * scalar in the source. -/
noncomputable def Vec2.smul (v : Vec2) (c : ℝ) : Vec2 := ⟨v.x * c, v.y * c⟩

/-- Componentwise division by a scalar, as written vector /= scalar in the
source. -/
noncomputable def Vec2.div (v : Vec2) (c : ℝ) : Vec2 := ⟨v.x / c, v.y / c⟩

/-- Vec2::perp of glam: the vector rotated by 90 degrees. -/
noncomputable def Vec2.perp (v : Vec2) : Vec2 := ⟨-v.y, v.x⟩

/-- Vec2::length of glam: the Euclidean norm sqrt(x*x + y*y). -/
noncomputable def Vec2.length (v : Vec2) : ℝ := Real.sqrt (v.x * v.x + v.y * v.y)

/-- Vec2::distance of glam: the Euclidean distance (self - rhs).length(). -/
noncomputable def Vec2.distance (a b : Vec2) : ℝ := (a - b).length

/-- Vec2::normalize of glam: self * (1 / length).  In the f32 source a zero
vector yields non-finite components; in the exact embedding the inverse of
zero is zero, so the result is the zero vector. -/
noncomputable def Vec2.normalize (v : Vec2) : Vec2 := v.smul v.length⁻¹

/-- Vec2::lerp of glam: self + (rhs - self) * s. -/
noncomputable def Vec2.lerp (a b : Vec2) (s : ℝ) : Vec2 := a + (b - a).smul s

/-- The bounds rectangle: the four edges of a nannou Rect as used by the
source (left, right, top, bottom, with bottom below top). -/
structure Rect where
  left : ℝ
  right : ℝ
  top : ℝ
  bottom : ℝ

/-- Agent of the source: a position and a velocity. -/
structure Agent where
  position : Vec2
  velocity : Vec2

instance : Inhabited Agent := ⟨⟨Vec2.zero, Vec2.zero⟩⟩

/-- Agent::SPEED. -/
noncomputable def SPEED : ℝ := 1.5

/-- Agent::DETECTION_RADIUS. -/
noncomputable def DETECTION_RADIUS : ℝ := 60.0

/-- Agent::MIN_DISTANCE. -/
noncomputable def MIN_DISTANCE : ℝ := 30.0

/-- Agent::MIN_DISTANCE_INVERSE = 1.0 / MIN_DISTANCE. -/
noncomputable def MIN_DISTANCE_INVERSE : ℝ := 1.0 / MIN_DISTANCE

/-- Agent::MIN_DISTANCE_FACTOR (the separation factor of the spec). -/
noncomputable def MIN_DISTANCE_FACTOR : ℝ := 0.3

/-- Agent::AVERAGE_VELOCITY_FACTOR (the alignment factor of the spec). -/
noncomputable def AVERAGE_VELOCITY_FACTOR : ℝ := 0.01

/-- Agent::AVERAGE_POSITION_FACTOR (the cohesion factor of the spec). -/
noncomputable def AVERAGE_POSITION_FACTOR : ℝ := 1e-4

/-- The x branch of the wraparound in Agent::step: if x exits on the left
edge it reappears at the right edge, and conversely. -/
noncomputable def wrapX (w : Rect) (x : ℝ) : ℝ :=
  if x < w.left then w.right else if x > w.right then w.left else x

/-- The y branch of the wraparound in Agent::step: if y exits above the top
edge it reappears at the bottom edge, and conversely. -/
noncomputable def wrapY (w : Rect) (y : ℝ) : ℝ :=
  if y > w.top then w.bottom else if y < w.bottom then w.top else y

/-- Agent::step: translate the position by the velocity, then wrap each
coordinate around the window rectangle.  The velocity is untouched. -/
noncomputable def Agent.step (a : Agent) (w : Rect) : Agent :=
  ⟨⟨wrapX w (a.position + a.velocity).x, wrapY w (a.position + a.velocity).y⟩,
    a.velocity⟩

/-- The three mutable accumulators of the neighbor loop in Agent::update:
average_position, average_velocity and num_neighbors. -/
structure Scan where
  avgPos : Vec2
  avgVel : Vec2
  n : ℕ

/-- One iteration of the neighbor loop of Agent::update, for the agent
standing at (post-step) position p against one entry of the snapshot:
if the distance is below DETECTION_RADIUS and above zero, accumulate the
velocity and the position of the other agent, apply the perpendicular
separation nudge when the distance is below MIN_DISTANCE, and increment
the neighbor count. -/
noncomputable def scanStep (p : Vec2) (s : Scan) (other : Agent) : Scan :=
  let d := p.distance other.position
  if d < DETECTION_RADIUS ∧ d > 0 then
    let v1 := s.avgVel + other.velocity
    let p1 := s.avgPos + other.position
    let v2 := if d < MIN_DISTANCE then
        v1 + ((v1.perp.smul MIN_DISTANCE_FACTOR).smul d).smul MIN_DISTANCE_INVERSE
      else v1
    ⟨p1, v2, s.n + 1⟩
  else s

/-- The whole neighbor loop of Agent::update, folded over the pre-tick
snapshot, starting from zeroed accumulators. -/
noncomputable def scanList (p : Vec2) (agents : List Agent) : Scan :=
  agents.foldl (scanStep p) ⟨Vec2.zero, Vec2.zero, 0⟩

/-- The velocity accumulated by Agent::update just before the final
normalization: move the agent, scan the snapshot, average the accumulators
when the neighbor count is positive, blend the velocity towards the
average velocity and add the pull towards the average position. -/
noncomputable def preNormVel (a : Agent) (w : Rect) (agents : List Agent) : Vec2 :=
  let a1 := a.step w
  let s := scanList a1.position agents
  let avgPos := if 0 < s.n then s.avgPos.div s.n else s.avgPos
  let avgVel := if 0 < s.n then s.avgVel.div s.n else s.avgVel
  (a1.velocity.lerp avgVel AVERAGE_VELOCITY_FACTOR) +
    ((avgPos - a1.position).smul AVERAGE_POSITION_FACTOR)

/-- Agent::update: the stepped position together with the accumulated
velocity renormalized and rescaled to SPEED. -/
noncomputable def Agent.update (a : Agent) (w : Rect) (agents : List Agent) : Agent :=
  ⟨(a.step w).position, ((preNormVel a w agents).normalize).smul SPEED⟩

/-- The per-frame update function of the driver: clone the pool as the
pre-tick snapshot, then recompute every agent against that snapshot. -/
noncomputable def tick (w : Rect) (agents : List Agent) : List Agent :=
  agents.map fun a => a.update w agents

/-- One in-place write of the driver loop: slot i of the live pool is
replaced by the update of its current occupant against the snapshot. -/
noncomputable def runStep (w : Rect) (snapshot pool : List Agent) (i : ℕ) : List Agent :=
  pool.set i ((pool.getD i default).update w snapshot)

/-- The driver loop with an explicit processing order: starting from the
live pool (equal to the snapshot), process the slots in the given order,
each against the pre-tick snapshot. -/
noncomputable def runOrder (w : Rect) (snapshot : List Agent) (order : List ℕ) : List Agent :=
  order.foldl (runStep w snapshot) snapshot

@[simp] theorem Vec2.add_def (a b : Vec2) : a + b = ⟨a.x + b.x, a.y + b.y⟩ := rfl

@[simp] theorem Vec2.sub_def (a b : Vec2) : a - b = ⟨a.x - b.x, a.y - b.y⟩ := rfl

theorem Vec2.length_nonneg (v : Vec2) : 0 ≤ v.length := Real.sqrt_nonneg _

theorem Vec2.ne_zero_iff (v : Vec2) : v ≠ Vec2.zero ↔ v.x ≠ 0 ∨ v.y ≠ 0 := by
  cases v with
  | mk x y =>
    simp only [Vec2.zero, ne_eq, Vec2.mk.injEq]
    tauto

theorem Vec2.length_pos (v : Vec2) (h : v ≠ Vec2.zero) : 0 < v.length := by
  rw [Vec2.ne_zero_iff] at h
  apply Real.sqrt_pos.mpr
  rcases h with h | h
  · have h1 := mul_self_pos.mpr h
    have h2 := mul_self_nonneg v.y
    linarith
  · have h1 := mul_self_pos.mpr h
    have h2 := mul_self_nonneg v.x
    linarith

theorem Vec2.length_smul (v : Vec2) (c : ℝ) : (v.smul c).length = |c| * v.length := by
  unfold Vec2.length Vec2.smul
  have : v.x * c * (v.x * c) + v.y * c * (v.y * c) = (c * c) * (v.x * v.x + v.y * v.y) := by
    ring
  rw [this, Real.sqrt_mul (mul_self_nonneg c), Real.sqrt_mul_self_eq_abs]

theorem Vec2.length_normalize (v : Vec2) (h : v ≠ Vec2.zero) : v.normalize.length = 1 := by
  have hl : 0 < v.length := v.length_pos h
  unfold Vec2.normalize
  rw [Vec2.length_smul, abs_inv, abs_of_pos hl, inv_mul_cancel₀ hl.ne']

theorem Vec2.length_normalize_smul (v : Vec2) (c : ℝ) (hc : 0 ≤ c)
    (h : v ≠ Vec2.zero) : ((v.normalize).smul c).length = c := by
  rw [Vec2.length_smul, abs_of_nonneg hc, Vec2.length_normalize v h, mul_one]

theorem Vec2.smul_cancel (v u : Vec2) (c : ℝ) (hc : c ≠ 0)
    (h : v.smul c = u.smul c) : v = u := by
  cases v with
  | mk vx vy =>
    cases u with
    | mk ux uy =>
      simp only [Vec2.smul, Vec2.mk.injEq] at h ⊢
      exact ⟨mul_right_cancel₀ hc h.1, mul_right_cancel₀ hc h.2⟩

theorem Vec2.cross_eq_zero_of_normalize_eq (a b : Vec2)
    (ha : a ≠ Vec2.zero) (hb : b ≠ Vec2.zero)
    (h : a.normalize = b.normalize) : a.x * b.y = a.y * b.x := by
  have hla : 0 < a.length := a.length_pos ha
  have hlb : 0 < b.length := b.length_pos hb
  unfold Vec2.normalize Vec2.smul at h
  rw [Vec2.mk.injEq] at h
  obtain ⟨h1, h2⟩ := h
  have e1 : a.x * b.length = b.x * a.length := by
    field_simp at h1
    linarith [h1]
  have e2 : a.y * b.length = b.y * a.length := by
    field_simp at h2
    linarith [h2]
  have key : a.x * b.y * b.length = a.y * b.x * b.length := by
    calc a.x * b.y * b.length = (a.x * b.length) * b.y := by ring
    _ = (b.x * a.length) * b.y := by rw [e1]
    _ = b.x * (b.y * a.length) := by ring
    _ = b.x * (a.y * b.length) := by rw [← e2]
    _ = a.y * b.x * b.length := by ring
  exact mul_right_cancel₀ hlb.ne' key

theorem Vec2.distance_eval (a b : Vec2) :
    Vec2.distance a b =
      Real.sqrt ((a.x - b.x) * (a.x - b.x) + (a.y - b.y) * (a.y - b.y)) := rfl

theorem Vec2.distance_eq (a b : Vec2) (r : ℝ) (hr : 0 ≤ r)
    (h : (a.x - b.x) * (a.x - b.x) + (a.y - b.y) * (a.y - b.y) = r * r) :
    Vec2.distance a b = r := by
  rw [Vec2.distance_eval, h, Real.sqrt_mul_self hr]

theorem scanStep_of_not (p : Vec2) (s : Scan) (o : Agent)
    (h : ¬(p.distance o.position < DETECTION_RADIUS ∧ p.distance o.position > 0)) :
    scanStep p s o = s := by
  simp only [scanStep]
  rw [if_neg h]

theorem scanStep_of_near (p : Vec2) (s : Scan) (o : Agent)
    (h0 : p.distance o.position > 0) (hd : p.distance o.position < MIN_DISTANCE) :
    scanStep p s o = ⟨s.avgPos + o.position,
      (s.avgVel + o.velocity) +
        (((s.avgVel + o.velocity).perp.smul MIN_DISTANCE_FACTOR).smul
          (p.distance o.position)).smul MIN_DISTANCE_INVERSE,
      s.n + 1⟩ := by
  have hdet : p.distance o.position < DETECTION_RADIUS := by
    have : MIN_DISTANCE < DETECTION_RADIUS := by norm_num [MIN_DISTANCE, DETECTION_RADIUS]
    linarith
  simp only [scanStep]
  rw [if_pos ⟨hdet, h0⟩, if_pos hd]

theorem scanStep_of_far (p : Vec2) (s : Scan) (o : Agent)
    (h0 : p.distance o.position > 0) (hdet : p.distance o.position < DETECTION_RADIUS)
    (hd : ¬ p.distance o.position < MIN_DISTANCE) :
    scanStep p s o = ⟨s.avgPos + o.position, s.avgVel + o.velocity, s.n + 1⟩ := by
  simp only [scanStep]
  rw [if_pos ⟨hdet, h0⟩, if_neg hd]

theorem scanStep_n (p : Vec2) (s : Scan) (o : Agent) :
    (scanStep p s o).n = s.n +
      (if p.distance o.position < DETECTION_RADIUS ∧ p.distance o.position > 0
        then 1 else 0) := by
  simp only [scanStep]
  by_cases h : p.distance o.position < DETECTION_RADIUS ∧ p.distance o.position > 0
  · rw [if_pos h, if_pos h]
  · rw [if_neg h, if_neg h]
    omega

theorem foldl_scanStep_n (p : Vec2) (l : List Agent) : ∀ s : Scan,
    (List.foldl (scanStep p) s l).n =
      s.n + (List.countP (fun o =>
        decide (p.distance o.position < DETECTION_RADIUS ∧ p.distance o.position > 0)) l) := by
  induction l with
  | nil => intro s; simp
  | cons a t ih =>
    intro s
    rw [List.foldl_cons, ih, scanStep_n, List.countP_cons]
    simp only [decide_eq_true_eq]
    by_cases h : p.distance a.position < DETECTION_RADIUS ∧ p.distance a.position > 0
    · rw [if_pos h]
      omega
    · rw [if_neg h]
      omega

/-- C1: during one tick every agent is recomputed against the pre-tick
snapshot only, so for two agents A and B (in particular two agents within
detection radius of each other) processing the two slots of the live pool
in either order yields the same resulting pool, and each resulting slot is
the per-agent update applied to the pre-tick snapshot. -/
theorem tick_order_independent (w : Rect) (A B : Agent)
    (h : Vec2.distance A.position B.position < DETECTION_RADIUS) :
    runOrder w [A, B] [0, 1] = runOrder w [A, B] [1, 0] ∧
    runOrder w [A, B] [0, 1] = [A.update w [A, B], B.update w [A, B]] :=
  ⟨rfl, rfl⟩

/-- Witness for C1 at a concrete pair of agents 10 units apart. -/
theorem tick_order_independent_witness :
    Vec2.distance ⟨0, 0⟩ ⟨10, 0⟩ < DETECTION_RADIUS ∧
    runOrder ⟨-100, 100, 100, -100⟩
        [⟨⟨0, 0⟩, ⟨1.5, 0⟩⟩, ⟨⟨10, 0⟩, ⟨1.5, 0⟩⟩] [0, 1] =
      runOrder ⟨-100, 100, 100, -100⟩
        [⟨⟨0, 0⟩, ⟨1.5, 0⟩⟩, ⟨⟨10, 0⟩, ⟨1.5, 0⟩⟩] [1, 0] := by
  have hd : Vec2.distance (⟨0, 0⟩ : Vec2) ⟨10, 0⟩ = 10 :=
    Vec2.distance_eq _ _ 10 (by norm_num) (by norm_num)
  have hlt : Vec2.distance (⟨0, 0⟩ : Vec2) ⟨10, 0⟩ < DETECTION_RADIUS := by
    rw [hd]; norm_num [DETECTION_RADIUS]
  exact ⟨hlt,
    (tick_order_independent ⟨-100, 100, 100, -100⟩
      ⟨⟨0, 0⟩, ⟨1.5, 0⟩⟩ ⟨⟨10, 0⟩, ⟨1.5, 0⟩⟩ hlt).1⟩

/-- C2 counterexample: an agent alone in the pool.  Because Agent::update
moves the agent before the neighbor scan, the distance between its
post-move position and its own pre-tick snapshot entry is SPEED = 1.5,
which passes the 0 < distance < DETECTION_RADIUS guard: the agent counts
its own pre-tick entry as a neighbor, so the neighbor count is 1 even
though no other agent exists. -/
theorem self_counted_as_neighbor :
    (scanList ((Agent.step ⟨⟨0, 0⟩, ⟨1.5, 0⟩⟩ ⟨-100, 100, 100, -100⟩).position)
      [⟨⟨0, 0⟩, ⟨1.5, 0⟩⟩]).n = 1 := by
  have hstep : (Agent.step ⟨⟨0, 0⟩, ⟨1.5, 0⟩⟩ ⟨-100, 100, 100, -100⟩).position
      = ⟨1.5, 0⟩ := by
    simp only [Agent.step, wrapX, wrapY, Vec2.add_def]
    norm_num
  rw [hstep]
  have hd : Vec2.distance (⟨1.5, 0⟩ : Vec2) ⟨0, 0⟩ = 1.5 :=
    Vec2.distance_eq _ _ 1.5 (by norm_num) (by norm_num)
  unfold scanList
  rw [List.foldl_cons, List.foldl_nil, scanStep_n]
  simp only [hd]
  rw [if_pos (by norm_num [DETECTION_RADIUS] : (1.5 : ℝ) < DETECTION_RADIUS ∧ (1.5 : ℝ) > 0)]

/-- C2 (amended): the 0 < distance guard of the neighbor scan is evaluated
against the post-move position of the updating agent, so an entry of the
snapshot, the updating agents own pre-tick entry included, is counted as a
neighbor exactly when its distance to the post-move position lies strictly
between 0 and DETECTION_RADIUS; the own entry is excluded only when the
per-tick displacement (after wrapping) is 0 or at least DETECTION_RADIUS. -/
theorem neighbor_count_of_entry (p : Vec2) (l1 l2 : List Agent) (a : Agent) :
    (scanList p (l1 ++ a :: l2)).n = (scanList p (l1 ++ l2)).n +
      (if p.distance a.position < DETECTION_RADIUS ∧ p.distance a.position > 0
        then 1 else 0) := by
  unfold scanList
  rw [foldl_scanStep_n, foldl_scanStep_n, List.countP_append, List.countP_append,
    List.countP_cons]
  simp only [decide_eq_true_eq]
  by_cases h : p.distance a.position < DETECTION_RADIUS ∧ p.distance a.position > 0
  · rw [if_pos h]
    omega
  · rw [if_neg h]
    omega

theorem wrapX_mem (w : Rect) (x : ℝ) (hlr : w.left ≤ w.right) :
    w.left ≤ wrapX w x ∧ wrapX w x ≤ w.right := by
  unfold wrapX
  split_ifs with h1 h2
  · exact ⟨hlr, le_refl _⟩
  · exact ⟨le_refl _, hlr⟩
  · push_neg at h1 h2
    exact ⟨h1, h2⟩

theorem wrapY_mem (w : Rect) (y : ℝ) (hbt : w.bottom ≤ w.top) :
    w.bottom ≤ wrapY w y ∧ wrapY w y ≤ w.top := by
  unfold wrapY
  split_ifs with h1 h2
  · exact ⟨le_refl _, hbt⟩
  · exact ⟨hbt, le_refl _⟩
  · push_neg at h1 h2
    exact ⟨h2, h1⟩

/-- C4: after a tick of the pool, every agent position lies inside the
bounds rectangle; the wraparound branches land exactly on an edge and the
pass-through branch keeps the coordinate where it was, so containment is
enforced without clamping. -/
theorem tick_position_in_bounds (w : Rect) (pool : List Agent)
    (hlr : w.left ≤ w.right) (hbt : w.bottom ≤ w.top) :
    ∀ a ∈ tick w pool,
      w.left ≤ a.position.x ∧ a.position.x ≤ w.right ∧
      w.bottom ≤ a.position.y ∧ a.position.y ≤ w.top := by
  intro a ha
  rw [tick, List.mem_map] at ha
  obtain ⟨b, _, rfl⟩ := ha
  simp only [Agent.update, Agent.step]
  obtain ⟨hx1, hx2⟩ := wrapX_mem w (b.position + b.velocity).x hlr
  obtain ⟨hy1, hy2⟩ := wrapY_mem w (b.position + b.velocity).y hbt
  exact ⟨hx1, hx2, hy1, hy2⟩

/-- Witness for C4 at a concrete rectangle and a one-agent pool. -/
theorem tick_position_in_bounds_witness :
    ((-100 : ℝ) ≤ 100 ∧ (-100 : ℝ) ≤ 100) ∧
    ((⟨-100, 100, 100, -100⟩ : Rect).left ≤
        (Agent.update ⟨⟨99.5, 0⟩, ⟨1.5, 0⟩⟩ ⟨-100, 100, 100, -100⟩
          [⟨⟨99.5, 0⟩, ⟨1.5, 0⟩⟩]).position.x ∧
      (Agent.update ⟨⟨99.5, 0⟩, ⟨1.5, 0⟩⟩ ⟨-100, 100, 100, -100⟩
          [⟨⟨99.5, 0⟩, ⟨1.5, 0⟩⟩]).position.x ≤ (⟨-100, 100, 100, -100⟩ : Rect).right ∧
      (⟨-100, 100, 100, -100⟩ : Rect).bottom ≤
        (Agent.update ⟨⟨99.5, 0⟩, ⟨1.5, 0⟩⟩ ⟨-100, 100, 100, -100⟩
          [⟨⟨99.5, 0⟩, ⟨1.5, 0⟩⟩]).position.y ∧
      (Agent.update ⟨⟨99.5, 0⟩, ⟨1.5, 0⟩⟩ ⟨-100, 100, 100, -100⟩
          [⟨⟨99.5, 0⟩, ⟨1.5, 0⟩⟩]).position.y ≤ (⟨-100, 100, 100, -100⟩ : Rect).top) := by
  constructor
  · norm_num
  · exact tick_position_in_bounds ⟨-100, 100, 100, -100⟩ [⟨⟨99.5, 0⟩, ⟨1.5, 0⟩⟩]
      (by norm_num) (by norm_num)
      (Agent.update ⟨⟨99.5, 0⟩, ⟨1.5, 0⟩⟩ ⟨-100, 100, 100, -100⟩ [⟨⟨99.5, 0⟩, ⟨1.5, 0⟩⟩])
      (by simp [tick])

/-- C5: wraparound exactness.  A coordinate strictly past an edge by any
positive margin reappears exactly at the opposite edge, and a coordinate
exactly on an edge is left unchanged. -/
theorem wrap_exactness (w : Rect) (e : ℝ) (hlr : w.left ≤ w.right)
    (hbt : w.bottom ≤ w.top) (he : 0 < e) :
    wrapX w (w.right + e) = w.left ∧ wrapX w (w.left - e) = w.right ∧
    wrapY w (w.top + e) = w.bottom ∧ wrapY w (w.bottom - e) = w.top ∧
    wrapX w w.right = w.right ∧ wrapX w w.left = w.left ∧
    wrapY w w.top = w.top ∧ wrapY w w.bottom = w.bottom := by
  unfold wrapX wrapY
  refine ⟨?_, ?_, ?_, ?_, ?_, ?_, ?_, ?_⟩
  · rw [if_neg (not_lt.mpr (by linarith)), if_pos (by linarith : w.right + e > w.right)]
  · rw [if_pos (by linarith : w.left - e < w.left)]
  · rw [if_pos (by linarith : w.top + e > w.top)]
  · rw [if_neg (not_lt.mpr (by linarith : w.bottom - e ≤ w.top)),
      if_pos (by linarith : w.bottom - e < w.bottom)]
  · rw [if_neg (not_lt.mpr hlr), if_neg (not_lt.mpr (le_refl _))]
  · rw [if_neg (not_lt.mpr (le_refl _)), if_neg (not_lt.mpr hlr)]
  · rw [if_neg (not_lt.mpr (le_refl _)), if_neg (not_lt.mpr hbt)]
  · rw [if_neg (not_lt.mpr hbt), if_neg (not_lt.mpr (le_refl _))]

/-- Witness for C5 at a concrete rectangle and margin 1. -/
theorem wrap_exactness_witness :
    wrapX ⟨-100, 100, 50, -50⟩ 101 = -100 ∧ wrapX ⟨-100, 100, 50, -50⟩ (-101) = 100 ∧
    wrapY ⟨-100, 100, 50, -50⟩ 51 = -50 ∧ wrapY ⟨-100, 100, 50, -50⟩ (-51) = 50 ∧
    wrapX ⟨-100, 100, 50, -50⟩ 100 = 100 ∧ wrapX ⟨-100, 100, 50, -50⟩ (-100) = -100 ∧
    wrapY ⟨-100, 100, 50, -50⟩ 50 = 50 ∧ wrapY ⟨-100, 100, 50, -50⟩ (-50) = -50 := by
  have h := wrap_exactness ⟨-100, 100, 50, -50⟩ 1 (by norm_num) (by norm_num) (by norm_num)
  norm_num at h
  exact h

theorem Agent.step_of_no_wrap (a : Agent) (w : Rect)
    (h1 : w.left ≤ a.position.x + a.velocity.x)
    (h2 : a.position.x + a.velocity.x ≤ w.right)
    (h3 : w.bottom ≤ a.position.y + a.velocity.y)
    (h4 : a.position.y + a.velocity.y ≤ w.top) :
    a.step w = ⟨⟨a.position.x + a.velocity.x, a.position.y + a.velocity.y⟩,
      a.velocity⟩ := by
  unfold Agent.step wrapX wrapY
  simp only [Vec2.add_def]
  rw [if_neg (not_lt.mpr h1), if_neg (not_lt.mpr h2), if_neg (not_lt.mpr h4),
    if_neg (not_lt.mpr h3)]

theorem iso_step :
    Agent.step ⟨⟨0, 0⟩, ⟨1.5, 0⟩⟩ ⟨-100, 100, 100, -100⟩ = ⟨⟨1.5, 0⟩, ⟨1.5, 0⟩⟩ := by
  unfold Agent.step wrapX wrapY
  simp only [Vec2.add_def]
  norm_num

theorem iso_scan :
    scanList ⟨1.5, 0⟩ [⟨⟨0, 0⟩, ⟨1.5, 0⟩⟩] = ⟨⟨0, 0⟩, ⟨3 / 2, 9 / 400⟩, 1⟩ := by
  have hd : Vec2.distance (⟨1.5, 0⟩ : Vec2) (Agent.mk ⟨0, 0⟩ ⟨1.5, 0⟩).position = 1.5 :=
    Vec2.distance_eq _ _ 1.5 (by norm_num) (by norm_num)
  unfold scanList
  rw [List.foldl_cons, List.foldl_nil,
    scanStep_of_near _ _ _ (by rw [hd]; norm_num)
      (by rw [hd]; norm_num [MIN_DISTANCE]), hd]
  simp only [Vec2.zero, Vec2.add_def, Vec2.perp, Vec2.smul, MIN_DISTANCE_FACTOR,
    MIN_DISTANCE_INVERSE, MIN_DISTANCE, Scan.mk.injEq, Vec2.mk.injEq]
  norm_num

theorem iso_preNorm :
    preNormVel ⟨⟨0, 0⟩, ⟨1.5, 0⟩⟩ ⟨-100, 100, 100, -100⟩ [⟨⟨0, 0⟩, ⟨1.5, 0⟩⟩]
      = ⟨29997 / 20000, 9 / 40000⟩ := by
  simp only [preNormVel, iso_step, iso_scan]
  norm_num [Vec2.div, Vec2.lerp, Vec2.smul, Vec2.add_def, Vec2.sub_def,
    AVERAGE_VELOCITY_FACTOR, AVERAGE_POSITION_FACTOR]

theorem Vec2.normalize_normalize_smul (v : Vec2) (c : ℝ) (hc : 0 < c)
    (h : v ≠ Vec2.zero) : ((v.normalize).smul c).normalize = v.normalize := by
  have hl := Vec2.length_normalize_smul v c hc.le h
  have hL := Vec2.length_pos v h
  show ((v.normalize).smul c).smul ((v.normalize).smul c).length⁻¹ = v.normalize
  rw [hl]
  cases v with
  | mk x y =>
    simp only [Vec2.normalize, Vec2.smul, Vec2.mk.injEq]
    constructor <;> (field_simp; ring)

/-- C6 counterexample: an isolated agent (alone in the pool) at the origin
with velocity (1.5, 0).  After one tick its velocity direction has changed:
the agent counts its own pre-tick entry as a neighbor (the scan runs after
the move), receives the perpendicular separation nudge from it, and the
cohesion term pulls towards the average position even here, so the new
heading acquires a strictly positive y component. -/
theorem isolated_direction_changes :
    Vec2.normalize ((Agent.update ⟨⟨0, 0⟩, ⟨1.5, 0⟩⟩ ⟨-100, 100, 100, -100⟩
        [⟨⟨0, 0⟩, ⟨1.5, 0⟩⟩]).velocity)
      ≠ Vec2.normalize ((⟨⟨0, 0⟩, ⟨1.5, 0⟩⟩ : Agent).velocity) := by
  have hne : (⟨29997 / 20000, 9 / 40000⟩ : Vec2) ≠ Vec2.zero := by
    rw [Vec2.ne_zero_iff]
    left
    norm_num
  have hL : 0 < Vec2.length ⟨29997 / 20000, 9 / 40000⟩ := Vec2.length_pos _ hne
  simp only [Agent.update, iso_preNorm]
  rw [Vec2.normalize_normalize_smul _ SPEED (by norm_num [SPEED]) hne]
  intro heq
  have hy := congrArg Vec2.y heq
  simp only [Vec2.normalize, Vec2.smul] at hy
  have hzero : (9 / 40000 : ℝ) * (Vec2.length ⟨29997 / 20000, 9 / 40000⟩)⁻¹ = 0 := by
    rw [hy]
    norm_num
  exact mul_ne_zero (by norm_num) (inv_ne_zero hL.ne') hzero

/-- C6 (amended): for any agent whose translated position stays inside the
bounds rectangle, one tick changes the position by exactly the prior
velocity (this part of the claim holds for every pool, isolated or not);
the direction-unchanged part of the claim is refuted by the
counterexample, because the agents own pre-tick entry acts as a neighbor
and the cohesion pull applies even with zero neighbor accumulators. -/
theorem position_change_is_velocity (a : Agent) (w : Rect) (pool : List Agent)
    (h1 : w.left ≤ a.position.x + a.velocity.x)
    (h2 : a.position.x + a.velocity.x ≤ w.right)
    (h3 : w.bottom ≤ a.position.y + a.velocity.y)
    (h4 : a.position.y + a.velocity.y ≤ w.top) :
    (a.update w pool).position = a.position + a.velocity := by
  simp only [Agent.update, Agent.step_of_no_wrap a w h1 h2 h3 h4, Vec2.add_def]

/-- Witness for the amended C6 at a concrete isolated agent. -/
theorem position_change_is_velocity_witness :
    ((-100 : ℝ) ≤ 0 + 1.5 ∧ (0 : ℝ) + 1.5 ≤ 100 ∧
      (-100 : ℝ) ≤ 0 + 0 ∧ (0 : ℝ) + 0 ≤ 100) ∧
    (Agent.update ⟨⟨0, 0⟩, ⟨1.5, 0⟩⟩ ⟨-100, 100, 100, -100⟩
        [⟨⟨0, 0⟩, ⟨1.5, 0⟩⟩]).position = (⟨0, 0⟩ : Vec2) + ⟨1.5, 0⟩ := by
  refine ⟨by norm_num, ?_⟩
  exact position_change_is_velocity ⟨⟨0, 0⟩, ⟨1.5, 0⟩⟩ ⟨-100, 100, 100, -100⟩ _
    (by norm_num) (by norm_num) (by norm_num) (by norm_num)

theorem zero_step :
    Agent.step ⟨⟨0, 0⟩, ⟨0, 0⟩⟩ ⟨-100, 100, 100, -100⟩ = ⟨⟨0, 0⟩, ⟨0, 0⟩⟩ := by
  unfold Agent.step wrapX wrapY
  simp only [Vec2.add_def]
  norm_num

theorem zero_scan :
    scanList ⟨0, 0⟩ [⟨⟨0, 0⟩, ⟨0, 0⟩⟩] = ⟨Vec2.zero, Vec2.zero, 0⟩ := by
  have hd : Vec2.distance (⟨0, 0⟩ : Vec2) (Agent.mk ⟨0, 0⟩ ⟨0, 0⟩).position = 0 :=
    Vec2.distance_eq _ _ 0 (by norm_num) (by norm_num)
  unfold scanList
  rw [List.foldl_cons, List.foldl_nil, scanStep_of_not]
  rw [hd]
  intro hcon
  exact lt_irrefl 0 hcon.2

/-- C3 counterexample: a pool holding one motionless agent at the origin.
Its accumulated steering vector is exactly zero, so the final
normalization divides zero by zero: after the tick the velocity is the
zero vector (NaN components in the f32 source) and its magnitude is 0,
not SPEED. -/
theorem speed_invariant_fails :
    ¬ ∀ a ∈ tick ⟨-100, 100, 100, -100⟩ [⟨⟨0, 0⟩, ⟨0, 0⟩⟩],
        Vec2.length a.velocity = SPEED := by
  intro h
  have hm : Agent.update ⟨⟨0, 0⟩, ⟨0, 0⟩⟩ ⟨-100, 100, 100, -100⟩
      [⟨⟨0, 0⟩, ⟨0, 0⟩⟩] ∈ tick ⟨-100, 100, 100, -100⟩ [⟨⟨0, 0⟩, ⟨0, 0⟩⟩] := by
    simp [tick]
  have hv := h _ hm
  have hpre : preNormVel ⟨⟨0, 0⟩, ⟨0, 0⟩⟩ ⟨-100, 100, 100, -100⟩
      [⟨⟨0, 0⟩, ⟨0, 0⟩⟩] = ⟨0, 0⟩ := by
    simp only [preNormVel, zero_step, zero_scan]
    norm_num [Vec2.div, Vec2.lerp, Vec2.smul, Vec2.add_def, Vec2.sub_def, Vec2.zero,
      AVERAGE_VELOCITY_FACTOR, AVERAGE_POSITION_FACTOR]
  rw [Agent.update] at hv
  simp only [hpre] at hv
  rw [show Vec2.normalize ⟨0, 0⟩ = ⟨0, 0⟩ by
      simp [Vec2.normalize, Vec2.smul]] at hv
  rw [show Vec2.smul ⟨0, 0⟩ SPEED = ⟨0, 0⟩ by simp [Vec2.smul]] at hv
  rw [show Vec2.length ⟨0, 0⟩ = 0 by
      simp [Vec2.length, Real.sqrt_zero]] at hv
  norm_num [SPEED] at hv

/-- C3 (amended): after a tick, every agent whose accumulated steering
vector (the velocity just before the final normalization) is nonzero ends
with velocity of magnitude exactly SPEED.  The unconditional claim fails
exactly when that accumulated vector is zero, the degenerate case the spec
itself flags as undefined: there the f32 source produces NaN and the exact
embedding produces the zero vector. -/
theorem speed_invariant (a : Agent) (w : Rect) (pool : List Agent)
    (h : preNormVel a w pool ≠ Vec2.zero) :
    Vec2.length ((a.update w pool).velocity) = SPEED := by
  simp only [Agent.update]
  exact Vec2.length_normalize_smul _ SPEED (by norm_num [SPEED]) h

/-- Witness for the amended C3 at a concrete agent. -/
theorem speed_invariant_witness :
    preNormVel ⟨⟨0, 0⟩, ⟨1.5, 0⟩⟩ ⟨-100, 100, 100, -100⟩ [] ≠ Vec2.zero ∧
    Vec2.length ((Agent.update ⟨⟨0, 0⟩, ⟨1.5, 0⟩⟩ ⟨-100, 100, 100, -100⟩
        []).velocity) = SPEED := by
  have hpre : preNormVel ⟨⟨0, 0⟩, ⟨1.5, 0⟩⟩ ⟨-100, 100, 100, -100⟩ []
      = ⟨29697 / 20000, 0⟩ := by
    simp only [preNormVel, iso_step, scanList, List.foldl_nil]
    norm_num [Vec2.div, Vec2.lerp, Vec2.smul, Vec2.add_def, Vec2.sub_def, Vec2.zero,
      AVERAGE_VELOCITY_FACTOR, AVERAGE_POSITION_FACTOR]
  have hne : preNormVel ⟨⟨0, 0⟩, ⟨1.5, 0⟩⟩ ⟨-100, 100, 100, -100⟩ [] ≠ Vec2.zero := by
    rw [hpre, Vec2.ne_zero_iff]
    left
    norm_num
  exact ⟨hne, speed_invariant _ _ _ hne⟩

/-- C7: the separation nudge is literally the stated formula: for a
neighbor at distance d with 0 < d < MIN_DISTANCE the velocity accumulator
becomes acc + perp(acc) scaled by MIN_DISTANCE_FACTOR * d / MIN_DISTANCE,
where acc is the running accumulator just after the neighbor velocity was
added (the code multiplies by the precomputed MIN_DISTANCE_INVERSE, which
equals division by MIN_DISTANCE); and the magnitude of the nudge grows
monotonically with the distance d. -/
theorem separation_nudge_formula (p : Vec2) (s : Scan) (o : Agent)
    (h0 : p.distance o.position > 0) (hd : p.distance o.position < MIN_DISTANCE) :
    scanStep p s o = ⟨s.avgPos + o.position,
      (s.avgVel + o.velocity) +
        ((s.avgVel + o.velocity).perp).smul
          (MIN_DISTANCE_FACTOR * p.distance o.position / MIN_DISTANCE),
      s.n + 1⟩ ∧
    ∀ e f : ℝ, 0 ≤ e → e ≤ f →
      (((s.avgVel + o.velocity).perp).smul
          (MIN_DISTANCE_FACTOR * e / MIN_DISTANCE)).length ≤
        (((s.avgVel + o.velocity).perp).smul
          (MIN_DISTANCE_FACTOR * f / MIN_DISTANCE)).length := by
  constructor
  · rw [scanStep_of_near p s o h0 hd]
    simp only [Scan.mk.injEq, Vec2.mk.injEq, Vec2.add_def, Vec2.smul, Vec2.perp,
      MIN_DISTANCE_INVERSE, MIN_DISTANCE]
    norm_num
    constructor <;> ring
  · intro e f he hef
    have hmdf : (0 : ℝ) ≤ MIN_DISTANCE_FACTOR := by norm_num [MIN_DISTANCE_FACTOR]
    have hmd : (0 : ℝ) ≤ MIN_DISTANCE := by norm_num [MIN_DISTANCE]
    have h1 : (0 : ℝ) ≤ MIN_DISTANCE_FACTOR * e / MIN_DISTANCE :=
      div_nonneg (mul_nonneg hmdf he) hmd
    have h2 : (0 : ℝ) ≤ MIN_DISTANCE_FACTOR * f / MIN_DISTANCE :=
      div_nonneg (mul_nonneg hmdf (he.trans hef)) hmd
    rw [Vec2.length_smul, Vec2.length_smul, abs_of_nonneg h1, abs_of_nonneg h2]
    apply mul_le_mul_of_nonneg_right _ (Vec2.length_nonneg _)
    rw [div_le_div_iff_of_pos_right (by norm_num [MIN_DISTANCE])]
    exact mul_le_mul_of_nonneg_left hef hmdf

/-- Witness for C7: a neighbor 10 units away, fully evaluated. -/
theorem separation_nudge_formula_witness :
    Vec2.distance ⟨0, 0⟩ (Agent.mk ⟨10, 0⟩ ⟨0, 1.5⟩).position > 0 ∧
    Vec2.distance ⟨0, 0⟩ (Agent.mk ⟨10, 0⟩ ⟨0, 1.5⟩).position < MIN_DISTANCE ∧
    scanStep ⟨0, 0⟩ ⟨⟨0, 0⟩, ⟨0, 0⟩, 0⟩ ⟨⟨10, 0⟩, ⟨0, 1.5⟩⟩
      = ⟨⟨10, 0⟩, ⟨-3 / 20, 3 / 2⟩, 1⟩ := by
  have hd : Vec2.distance (⟨0, 0⟩ : Vec2) (Agent.mk ⟨10, 0⟩ ⟨0, 1.5⟩).position = 10 :=
    Vec2.distance_eq _ _ 10 (by norm_num) (by norm_num)
  have h0 : Vec2.distance (⟨0, 0⟩ : Vec2) (Agent.mk ⟨10, 0⟩ ⟨0, 1.5⟩).position > 0 := by
    rw [hd]; norm_num
  have hm : Vec2.distance (⟨0, 0⟩ : Vec2) (Agent.mk ⟨10, 0⟩ ⟨0, 1.5⟩).position
      < MIN_DISTANCE := by
    rw [hd]; norm_num [MIN_DISTANCE]
  refine ⟨h0, hm, ?_⟩
  rw [(separation_nudge_formula ⟨0, 0⟩ ⟨⟨0, 0⟩, ⟨0, 0⟩, 0⟩ ⟨⟨10, 0⟩, ⟨0, 1.5⟩⟩ h0 hm).1,
    hd]
  simp only [Scan.mk.injEq, Vec2.mk.injEq, Vec2.add_def, Vec2.smul, Vec2.perp,
    MIN_DISTANCE_FACTOR, MIN_DISTANCE]
  norm_num

/-- C9: Agent::step performs the tick on a zero-area bounds rectangle
without any precondition check or signaled failure: with all four edges at
0, the moved position is simply wrapped onto the corner point (0, 0) and
the computation proceeds normally, contradicting the claim that degenerate
bounds are rejected. -/
theorem degenerate_bounds_not_rejected :
    Agent.step ⟨⟨5, 5⟩, ⟨1.5, 0⟩⟩ ⟨0, 0, 0, 0⟩ = ⟨⟨0, 0⟩, ⟨1.5, 0⟩⟩ := by
  unfold Agent.step wrapX wrapY
  simp only [Vec2.add_def]
  norm_num

/-- C8: the source has no fallback branch for normalizing a zero-length
steering accumulation.  Concrete failing input: an agent heading right at
SPEED whose snapshot contains, besides its own entry, one far neighbor
(distance 40, inside the detection radius, outside MIN_DISTANCE) whose
velocity exactly cancels the accumulation: the pre-normalization velocity
is the zero vector, and Agent::update normalizes it anyway, yielding the
zero vector in the exact embedding (NaN components in the f32 source)
instead of preserving the prior heading. -/
theorem zero_normalize_no_fallback :
    preNormVel ⟨⟨0, 0⟩, ⟨1.5, 0⟩⟩ ⟨-1000, 1000, 1000, -1000⟩
        [⟨⟨0, 0⟩, ⟨1.5, 0⟩⟩, ⟨⟨41.5, 0⟩, ⟨-298.885, -0.0225⟩⟩] = Vec2.zero ∧
    (Agent.update ⟨⟨0, 0⟩, ⟨1.5, 0⟩⟩ ⟨-1000, 1000, 1000, -1000⟩
        [⟨⟨0, 0⟩, ⟨1.5, 0⟩⟩, ⟨⟨41.5, 0⟩, ⟨-298.885, -0.0225⟩⟩]).velocity
      = Vec2.zero := by
  have hstep : Agent.step ⟨⟨0, 0⟩, ⟨1.5, 0⟩⟩ ⟨-1000, 1000, 1000, -1000⟩
      = ⟨⟨1.5, 0⟩, ⟨1.5, 0⟩⟩ := by
    unfold Agent.step wrapX wrapY
    simp only [Vec2.add_def]
    norm_num
  have hd1 : Vec2.distance (⟨1.5, 0⟩ : Vec2) (Agent.mk ⟨0, 0⟩ ⟨1.5, 0⟩).position
      = 1.5 := Vec2.distance_eq _ _ 1.5 (by norm_num) (by norm_num)
  have hd2 : Vec2.distance (⟨1.5, 0⟩ : Vec2)
      (Agent.mk ⟨41.5, 0⟩ ⟨-298.885, -0.0225⟩).position = 40 :=
    Vec2.distance_eq _ _ 40 (by norm_num) (by norm_num)
  have hs1 : scanStep ⟨1.5, 0⟩ ⟨Vec2.zero, Vec2.zero, 0⟩ ⟨⟨0, 0⟩, ⟨1.5, 0⟩⟩
      = ⟨⟨0, 0⟩, ⟨3 / 2, 9 / 400⟩, 1⟩ := by
    rw [scanStep_of_near _ _ _ (by rw [hd1]; norm_num)
      (by rw [hd1]; norm_num [MIN_DISTANCE]), hd1]
    simp only [Vec2.zero, Vec2.add_def, Vec2.perp, Vec2.smul, MIN_DISTANCE_FACTOR,
      MIN_DISTANCE_INVERSE, MIN_DISTANCE, Scan.mk.injEq, Vec2.mk.injEq]
    norm_num
  have hs2 : scanStep ⟨1.5, 0⟩ ⟨⟨0, 0⟩, ⟨3 / 2, 9 / 400⟩, 1⟩
      ⟨⟨41.5, 0⟩, ⟨-298.885, -0.0225⟩⟩ = ⟨⟨41.5, 0⟩, ⟨-59477 / 200, 0⟩, 2⟩ := by
    rw [scanStep_of_far _ _ _ (by rw [hd2]; norm_num)
      (by rw [hd2]; norm_num [DETECTION_RADIUS])
      (by rw [hd2]; norm_num [MIN_DISTANCE])]
    simp only [Vec2.add_def, Scan.mk.injEq, Vec2.mk.injEq]
    norm_num
  have hscan : scanList ⟨1.5, 0⟩
      [⟨⟨0, 0⟩, ⟨1.5, 0⟩⟩, ⟨⟨41.5, 0⟩, ⟨-298.885, -0.0225⟩⟩]
      = ⟨⟨41.5, 0⟩, ⟨-59477 / 200, 0⟩, 2⟩ := by
    unfold scanList
    rw [List.foldl_cons, hs1, List.foldl_cons, hs2, List.foldl_nil]
  have hpre : preNormVel ⟨⟨0, 0⟩, ⟨1.5, 0⟩⟩ ⟨-1000, 1000, 1000, -1000⟩
      [⟨⟨0, 0⟩, ⟨1.5, 0⟩⟩, ⟨⟨41.5, 0⟩, ⟨-298.885, -0.0225⟩⟩] = Vec2.zero := by
    simp only [preNormVel, hstep, hscan]
    norm_num [Vec2.div, Vec2.lerp, Vec2.smul, Vec2.add_def, Vec2.sub_def, Vec2.zero,
      AVERAGE_VELOCITY_FACTOR, AVERAGE_POSITION_FACTOR]
  refine ⟨hpre, ?_⟩
  simp only [Agent.update, hpre]
  simp [Vec2.normalize, Vec2.smul, Vec2.zero]

theorem c10_sqrt_pos : 0 < Real.sqrt (409 / 4) := Real.sqrt_pos.mpr (by norm_num)

theorem c10_sqrt_lt_min : Real.sqrt (409 / 4) < MIN_DISTANCE := by
  unfold MIN_DISTANCE
  rw [Real.sqrt_lt' (by norm_num)]
  norm_num

theorem c10_sqrt_le_11 : Real.sqrt (409 / 4) ≤ 11 := by
  have h := Real.sqrt_le_sqrt (by norm_num : (409 / 4 : ℝ) ≤ 121)
  rwa [show (121 : ℝ) = 11 ^ 2 by norm_num, Real.sqrt_sq (by norm_num : (0:ℝ) ≤ 11)] at h

theorem c10_stepA :
    Agent.step ⟨⟨0, 0⟩, ⟨0, 3 / 2⟩⟩ ⟨-1000, 1000, 1000, -1000⟩
      = ⟨⟨0, 3 / 2⟩, ⟨0, 3 / 2⟩⟩ := by
  unfold Agent.step wrapX wrapY
  simp only [Vec2.add_def]
  norm_num

theorem c10_stepB :
    Agent.step ⟨⟨10, 0⟩, ⟨0, 3 / 2⟩⟩ ⟨-1000, 1000, 1000, -1000⟩
      = ⟨⟨10, 3 / 2⟩, ⟨0, 3 / 2⟩⟩ := by
  unfold Agent.step wrapX wrapY
  simp only [Vec2.add_def]
  norm_num

theorem c10_dAA :
    Vec2.distance ⟨0, 3 / 2⟩ (Agent.mk ⟨0, 0⟩ ⟨0, 3 / 2⟩).position = 3 / 2 :=
  Vec2.distance_eq _ _ (3 / 2) (by norm_num) (by norm_num)

theorem c10_dAB :
    Vec2.distance ⟨0, 3 / 2⟩ (Agent.mk ⟨10, 0⟩ ⟨0, 3 / 2⟩).position
      = Real.sqrt (409 / 4) := by
  rw [Vec2.distance_eval]
  norm_num

theorem c10_dBA :
    Vec2.distance ⟨10, 3 / 2⟩ (Agent.mk ⟨0, 0⟩ ⟨0, 3 / 2⟩).position
      = Real.sqrt (409 / 4) := by
  rw [Vec2.distance_eval]
  norm_num

theorem c10_dBB :
    Vec2.distance ⟨10, 3 / 2⟩ (Agent.mk ⟨10, 0⟩ ⟨0, 3 / 2⟩).position = 3 / 2 :=
  Vec2.distance_eq _ _ (3 / 2) (by norm_num) (by norm_num)

theorem c10_scanA :
    scanList ⟨0, 3 / 2⟩ [⟨⟨0, 0⟩, ⟨0, 3 / 2⟩⟩, ⟨⟨10, 0⟩, ⟨0, 3 / 2⟩⟩]
      = ⟨⟨10, 0⟩,
         ⟨-9 / 400 - 3 * Real.sqrt (409 / 4) / 100,
          3 - 9 * Real.sqrt (409 / 4) / 40000⟩, 2⟩ := by
  have hmin : (3 / 2 : ℝ) < MIN_DISTANCE := by unfold MIN_DISTANCE; norm_num
  have hs1 : scanStep ⟨0, 3 / 2⟩ ⟨Vec2.zero, Vec2.zero, 0⟩ ⟨⟨0, 0⟩, ⟨0, 3 / 2⟩⟩
      = ⟨⟨0, 0⟩, ⟨-9 / 400, 3 / 2⟩, 1⟩ := by
    rw [scanStep_of_near _ _ _ (by rw [c10_dAA]; norm_num) (by rw [c10_dAA]; exact hmin),
      c10_dAA]
    simp only [Vec2.zero, Vec2.add_def, Vec2.perp, Vec2.smul, MIN_DISTANCE_FACTOR,
      MIN_DISTANCE_INVERSE, MIN_DISTANCE, Scan.mk.injEq, Vec2.mk.injEq]
    norm_num
  have hs2 : scanStep ⟨0, 3 / 2⟩ ⟨⟨0, 0⟩, ⟨-9 / 400, 3 / 2⟩, 1⟩ ⟨⟨10, 0⟩, ⟨0, 3 / 2⟩⟩
      = ⟨⟨10, 0⟩,
         ⟨-9 / 400 - 3 * Real.sqrt (409 / 4) / 100,
          3 - 9 * Real.sqrt (409 / 4) / 40000⟩, 2⟩ := by
    rw [scanStep_of_near _ _ _ (by rw [c10_dAB]; exact c10_sqrt_pos)
      (by rw [c10_dAB]; exact c10_sqrt_lt_min), c10_dAB]
    simp only [Vec2.add_def, Vec2.perp, Vec2.smul, MIN_DISTANCE_FACTOR,
      MIN_DISTANCE_INVERSE, MIN_DISTANCE, Scan.mk.injEq, Vec2.mk.injEq]
    norm_num
    constructor <;> ring
  unfold scanList
  rw [List.foldl_cons, hs1, List.foldl_cons, hs2, List.foldl_nil]

theorem c10_scanB :
    scanList ⟨10, 3 / 2⟩ [⟨⟨0, 0⟩, ⟨0, 3 / 2⟩⟩, ⟨⟨10, 0⟩, ⟨0, 3 / 2⟩⟩]
      = ⟨⟨10, 0⟩,
         ⟨-3 * Real.sqrt (409 / 4) / 200 - 9 / 200,
          3 - 9 * Real.sqrt (409 / 4) / 40000⟩, 2⟩ := by
  have hmin : (3 / 2 : ℝ) < MIN_DISTANCE := by unfold MIN_DISTANCE; norm_num
  have hs1 : scanStep ⟨10, 3 / 2⟩ ⟨Vec2.zero, Vec2.zero, 0⟩ ⟨⟨0, 0⟩, ⟨0, 3 / 2⟩⟩
      = ⟨⟨0, 0⟩, ⟨-3 * Real.sqrt (409 / 4) / 200, 3 / 2⟩, 1⟩ := by
    rw [scanStep_of_near _ _ _ (by rw [c10_dBA]; exact c10_sqrt_pos)
      (by rw [c10_dBA]; exact c10_sqrt_lt_min), c10_dBA]
    simp only [Vec2.zero, Vec2.add_def, Vec2.perp, Vec2.smul, MIN_DISTANCE_FACTOR,
      MIN_DISTANCE_INVERSE, MIN_DISTANCE, Scan.mk.injEq, Vec2.mk.injEq]
    norm_num
    ring
  have hs2 : scanStep ⟨10, 3 / 2⟩ ⟨⟨0, 0⟩, ⟨-3 * Real.sqrt (409 / 4) / 200, 3 / 2⟩, 1⟩
      ⟨⟨10, 0⟩, ⟨0, 3 / 2⟩⟩
      = ⟨⟨10, 0⟩,
         ⟨-3 * Real.sqrt (409 / 4) / 200 - 9 / 200,
          3 - 9 * Real.sqrt (409 / 4) / 40000⟩, 2⟩ := by
    rw [scanStep_of_near _ _ _ (by rw [c10_dBB]; norm_num) (by rw [c10_dBB]; exact hmin),
      c10_dBB]
    simp only [Vec2.add_def, Vec2.perp, Vec2.smul, MIN_DISTANCE_FACTOR,
      MIN_DISTANCE_INVERSE, MIN_DISTANCE, Scan.mk.injEq, Vec2.mk.injEq]
    norm_num
    constructor <;> ring
  unfold scanList
  rw [List.foldl_cons, hs1, List.foldl_cons, hs2, List.foldl_nil]

theorem c10_preA :
    preNormVel ⟨⟨0, 0⟩, ⟨0, 3 / 2⟩⟩ ⟨-1000, 1000, 1000, -1000⟩
        [⟨⟨0, 0⟩, ⟨0, 3 / 2⟩⟩, ⟨⟨10, 0⟩, ⟨0, 3 / 2⟩⟩]
      = ⟨31 / 80000 - 3 * Real.sqrt (409 / 4) / 20000,
         3 / 2 - 3 / 20000 - 9 * Real.sqrt (409 / 4) / 8000000⟩ := by
  simp only [preNormVel, c10_stepA, c10_scanA]
  norm_num [Vec2.div, Vec2.lerp, Vec2.smul, Vec2.add_def, Vec2.sub_def,
    AVERAGE_VELOCITY_FACTOR, AVERAGE_POSITION_FACTOR, Vec2.mk.injEq]
  constructor <;> ring

theorem c10_preB :
    preNormVel ⟨⟨10, 0⟩, ⟨0, 3 / 2⟩⟩ ⟨-1000, 1000, 1000, -1000⟩
        [⟨⟨0, 0⟩, ⟨0, 3 / 2⟩⟩, ⟨⟨10, 0⟩, ⟨0, 3 / 2⟩⟩]
      = ⟨-3 * Real.sqrt (409 / 4) / 40000 - 29 / 40000,
         3 / 2 - 3 / 20000 - 9 * Real.sqrt (409 / 4) / 8000000⟩ := by
  simp only [preNormVel, c10_stepB, c10_scanB]
  norm_num [Vec2.div, Vec2.lerp, Vec2.smul, Vec2.add_def, Vec2.sub_def,
    AVERAGE_VELOCITY_FACTOR, AVERAGE_POSITION_FACTOR, Vec2.mk.injEq]
  constructor <;> ring

/-- C10: two agents placed 10 units apart (less than MIN_DISTANCE) with
identical initial velocities of magnitude SPEED: after one tick of the
pool their velocities differ, and both still have magnitude exactly
SPEED. -/
theorem two_agent_divergence :
    ((tick ⟨-1000, 1000, 1000, -1000⟩
        [⟨⟨0, 0⟩, ⟨0, 3 / 2⟩⟩, ⟨⟨10, 0⟩, ⟨0, 3 / 2⟩⟩]).getD 0 default).velocity ≠
      ((tick ⟨-1000, 1000, 1000, -1000⟩
        [⟨⟨0, 0⟩, ⟨0, 3 / 2⟩⟩, ⟨⟨10, 0⟩, ⟨0, 3 / 2⟩⟩]).getD 1 default).velocity ∧
    Vec2.length (((tick ⟨-1000, 1000, 1000, -1000⟩
        [⟨⟨0, 0⟩, ⟨0, 3 / 2⟩⟩, ⟨⟨10, 0⟩, ⟨0, 3 / 2⟩⟩]).getD 0 default).velocity)
      = SPEED ∧
    Vec2.length (((tick ⟨-1000, 1000, 1000, -1000⟩
        [⟨⟨0, 0⟩, ⟨0, 3 / 2⟩⟩, ⟨⟨10, 0⟩, ⟨0, 3 / 2⟩⟩]).getD 1 default).velocity)
      = SPEED := by
  have h0 : (tick ⟨-1000, 1000, 1000, -1000⟩
      [⟨⟨0, 0⟩, ⟨0, 3 / 2⟩⟩, ⟨⟨10, 0⟩, ⟨0, 3 / 2⟩⟩]).getD 0 default
      = Agent.update ⟨⟨0, 0⟩, ⟨0, 3 / 2⟩⟩ ⟨-1000, 1000, 1000, -1000⟩
          [⟨⟨0, 0⟩, ⟨0, 3 / 2⟩⟩, ⟨⟨10, 0⟩, ⟨0, 3 / 2⟩⟩] := rfl
  have h1 : (tick ⟨-1000, 1000, 1000, -1000⟩
      [⟨⟨0, 0⟩, ⟨0, 3 / 2⟩⟩, ⟨⟨10, 0⟩, ⟨0, 3 / 2⟩⟩]).getD 1 default
      = Agent.update ⟨⟨10, 0⟩, ⟨0, 3 / 2⟩⟩ ⟨-1000, 1000, 1000, -1000⟩
          [⟨⟨0, 0⟩, ⟨0, 3 / 2⟩⟩, ⟨⟨10, 0⟩, ⟨0, 3 / 2⟩⟩] := rfl
  have hy : 0 < 3 / 2 - 3 / 20000 - 9 * Real.sqrt (409 / 4) / 8000000 := by
    have h11 := c10_sqrt_le_11
    have hpos := c10_sqrt_pos
    linarith
  have hAne : (⟨31 / 80000 - 3 * Real.sqrt (409 / 4) / 20000,
      3 / 2 - 3 / 20000 - 9 * Real.sqrt (409 / 4) / 8000000⟩ : Vec2) ≠ Vec2.zero := by
    rw [Vec2.ne_zero_iff]
    right
    exact hy.ne'
  have hBne : (⟨-3 * Real.sqrt (409 / 4) / 40000 - 29 / 40000,
      3 / 2 - 3 / 20000 - 9 * Real.sqrt (409 / 4) / 8000000⟩ : Vec2) ≠ Vec2.zero := by
    rw [Vec2.ne_zero_iff]
    right
    exact hy.ne'
  have hS : (0 : ℝ) < SPEED := by norm_num [SPEED]
  rw [h0, h1]
  simp only [Agent.update, c10_preA, c10_preB]
  refine ⟨?_, ?_, ?_⟩
  · intro heq
    have hn := congrArg Vec2.normalize heq
    rw [Vec2.normalize_normalize_smul _ SPEED hS hAne,
      Vec2.normalize_normalize_smul _ SPEED hS hBne] at hn
    have hcross := Vec2.cross_eq_zero_of_normalize_eq _ _ hAne hBne hn
    simp only [] at hcross
    have h2 : (31 / 80000 - 3 * Real.sqrt (409 / 4) / 20000 : ℝ) *
        (3 / 2 - 3 / 20000 - 9 * Real.sqrt (409 / 4) / 8000000)
        = (-3 * Real.sqrt (409 / 4) / 40000 - 29 / 40000) *
          (3 / 2 - 3 / 20000 - 9 * Real.sqrt (409 / 4) / 8000000) := by
      calc (31 / 80000 - 3 * Real.sqrt (409 / 4) / 20000 : ℝ) *
          (3 / 2 - 3 / 20000 - 9 * Real.sqrt (409 / 4) / 8000000)
          = (3 / 2 - 3 / 20000 - 9 * Real.sqrt (409 / 4) / 8000000) *
            (-3 * Real.sqrt (409 / 4) / 40000 - 29 / 40000) := hcross
      _ = (-3 * Real.sqrt (409 / 4) / 40000 - 29 / 40000) *
            (3 / 2 - 3 / 20000 - 9 * Real.sqrt (409 / 4) / 8000000) := by ring
    have hxeq := mul_right_cancel₀ hy.ne' h2
    have h11 := c10_sqrt_le_11
    linarith
  · exact Vec2.length_normalize_smul _ SPEED hS.le hAne
  · exact Vec2.length_normalize_smul _ SPEED hS.le hBne
